import Mathlib

/-!
Shallow embedding of the `CardAnimator` animation timer of the WebGPU card
demo.  Timestamps, durations and animated values are modelled as rationals,
and the wall clock (`performance.now()`) is passed explicitly as a `now`
argument.  The JS `Map<number, Entry>` backing store is modelled as an
association list with `mapGet` / `mapSet` / `mapDelete` mirroring
`Map.get` / `Map.set` / `Map.delete`; states reachable from the empty
animator keep their keys without duplicates, which `WellFormed` records.
-/

/-- The `property` tag of an animation entry: `"flip" | "hover"`. -/
inductive AnimProperty where
  | flip
  | hover
  deriving DecidableEq

/-- One in-flight animation, as stored in the `animations` map:
`{ startTime, duration, from, to, property }` (the JS field `from` is
renamed `fromValue`, and `to` is renamed `toValue`). -/
structure AnimationEntry where
  startTime : ℚ
  duration : ℚ
  fromValue : ℚ
  toValue : ℚ
  property : AnimProperty
  deriving DecidableEq

/-- The animator state: the `animations : Map<number, Entry>` field. -/
abbrev CardAnimator := List (Nat × AnimationEntry)

/-- `Map.get`: the entry stored for a key, if any. -/
def mapGet : CardAnimator → Nat → Option AnimationEntry
  | [], _ => none
  | (k, v) :: rest, cardId => if k = cardId then some v else mapGet rest cardId

/-- `Map.set`: store an entry for a key, overwriting an existing one. -/
def mapSet : CardAnimator → Nat → AnimationEntry → CardAnimator
  | [], cardId, v => [(cardId, v)]
  | (k, v') :: rest, cardId, v =>
      if k = cardId then (cardId, v) :: rest else (k, v') :: mapSet rest cardId v

/-- `Map.delete`: drop the entry stored for a key. -/
def mapDelete : CardAnimator → Nat → CardAnimator
  | [], _ => []
  | (k, v) :: rest, cardId =>
      if k = cardId then mapDelete rest cardId else (k, v) :: mapDelete rest cardId

/-- The keys currently present in the map. -/
def keys (s : CardAnimator) : List Nat := s.map Prod.fst

/-- States reachable from `new Map()` hold at most one entry per key. -/
def WellFormed (s : CardAnimator) : Prop := (keys s).Nodup

/-- The easing computed inside `update`:
`progress < 0.5 ? 2 * progress * progress : 1 - Math.pow(-2 * progress + 2, 2) / 2`. -/
def easedFun (progress : ℚ) : ℚ :=
  if progress < 1 / 2 then 2 * progress * progress
  else 1 - ((-2) * progress + 2) ^ 2 / 2

/-- The value `update` computes for an entry at wall-clock time `now`:
elapsed time, progress clamped at 1.0, easing, then linear interpolation
`anim.from + (anim.to - anim.from) * eased`. -/
def animValue (anim : AnimationEntry) (now : ℚ) : ℚ :=
  let elapsed := now - anim.startTime
  let progress := min (elapsed / anim.duration) 1
  anim.fromValue + (anim.toValue - anim.fromValue) * easedFun progress

/-- `startAnimation(cardId, property, from, to, duration)`: record a new
entry keyed by `cardId` with `startTime: performance.now()` (passed here as
`now`), overwriting any existing entry. -/
def startAnimation (s : CardAnimator) (cardId : Nat) (property : AnimProperty)
    (fromValue toValue duration : ℚ) (now : ℚ) : CardAnimator :=
  mapSet s cardId
    { startTime := now, duration := duration, fromValue := fromValue
      toValue := toValue, property := property }

/-- `update(cardId): number | null`: return `null` when no entry exists;
otherwise compute the eased interpolated value, delete the entry when
`progress >= 1.0`, and return the value.  The returned pair is
(returned value, animator state after the call). -/
def update (s : CardAnimator) (cardId : Nat) (now : ℚ) : Option ℚ × CardAnimator :=
  match mapGet s cardId with
  | none => (none, s)
  | some anim =>
      let elapsed := now - anim.startTime
      let progress := min (elapsed / anim.duration) 1
      let value := animValue anim now
      if 1 ≤ progress then (some value, mapDelete s cardId)
      else (some value, s)

/-- `isAnimating(cardId)`: `this.animations.has(cardId)`. -/
def isAnimating (s : CardAnimator) (cardId : Nat) : Bool :=
  (mapGet s cardId).isSome

/-- `hasActiveAnimations()`: `this.animations.size > 0`. -/
def hasActiveAnimations (s : CardAnimator) : Bool :=
  decide (0 < s.length)

theorem mapGet_mapSet_self (s : CardAnimator) (k : Nat) (v : AnimationEntry) :
    mapGet (mapSet s k v) k = some v := by
  induction s with
  | nil => simp [mapSet, mapGet]
  | cons hd tl ih =>
      obtain ⟨k', v'⟩ := hd
      by_cases h : k' = k <;> simp [mapSet, mapGet, h, ih]

theorem mapGet_mapSet_ne (s : CardAnimator) (k k' : Nat) (v : AnimationEntry)
    (h : k ≠ k') : mapGet (mapSet s k v) k' = mapGet s k' := by
  induction s with
  | nil => simp [mapSet, mapGet, h]
  | cons hd tl ih =>
      obtain ⟨k'', v''⟩ := hd
      by_cases hk : k'' = k
      · subst hk
        simp [mapSet, mapGet, h]
      · simp [mapSet, mapGet, hk, ih]

theorem mapGet_mapDelete_self (s : CardAnimator) (k : Nat) :
    mapGet (mapDelete s k) k = none := by
  induction s with
  | nil => simp [mapDelete, mapGet]
  | cons hd tl ih =>
      obtain ⟨k', v'⟩ := hd
      by_cases h : k' = k <;> simp [mapDelete, mapGet, h, ih]

theorem mapGet_mapDelete_ne (s : CardAnimator) (k k' : Nat) (h : k ≠ k') :
    mapGet (mapDelete s k) k' = mapGet s k' := by
  induction s with
  | nil => simp [mapDelete, mapGet]
  | cons hd tl ih =>
      obtain ⟨k'', v''⟩ := hd
      by_cases hk : k'' = k
      · subst hk
        simp [mapDelete, mapGet, h, ih]
      · simp [mapDelete, mapGet, hk, ih]

theorem mapSet_cons_self (k : Nat) (v' v : AnimationEntry) (tl : CardAnimator) :
    mapSet ((k, v') :: tl) k v = (k, v) :: tl := by
  simp [mapSet]

theorem mapSet_cons_ne (k cardId : Nat) (v' v : AnimationEntry) (tl : CardAnimator)
    (h : k ≠ cardId) : mapSet ((k, v') :: tl) cardId v = (k, v') :: mapSet tl cardId v := by
  simp [mapSet, h]

theorem mem_keys_mapSet (s : CardAnimator) (k : Nat) (v : AnimationEntry)
    (m : Nat) (h : m ∈ keys (mapSet s k v)) : m ∈ keys s ∨ m = k := by
  induction s with
  | nil =>
      simp only [mapSet, keys, List.map_cons, List.map_nil, List.mem_singleton] at h
      exact Or.inr h
  | cons hd tl ih =>
      obtain ⟨k', v'⟩ := hd
      by_cases hk : k' = k
      · subst hk
        rw [mapSet_cons_self] at h
        simp only [keys, List.map_cons, List.mem_cons] at h ⊢
        tauto
      · rw [mapSet_cons_ne k' k v' v tl hk] at h
        simp only [keys, List.map_cons, List.mem_cons] at h ⊢
        rcases h with h | h
        · exact Or.inl (Or.inl h)
        · rcases ih h with h' | h'
          · exact Or.inl (Or.inr h')
          · exact Or.inr h'

theorem wellFormed_mapSet (s : CardAnimator) (k : Nat) (v : AnimationEntry)
    (h : WellFormed s) : WellFormed (mapSet s k v) := by
  induction s with
  | nil =>
      simp only [mapSet, WellFormed, keys, List.map_cons, List.map_nil]
      exact List.nodup_singleton k
  | cons hd tl ih =>
      obtain ⟨k', v'⟩ := hd
      simp only [WellFormed, keys, List.map_cons, List.nodup_cons] at h
      by_cases hk : k' = k
      · subst hk
        rw [mapSet_cons_self]
        simp only [WellFormed, keys, List.map_cons, List.nodup_cons]
        exact h
      · have htl := ih h.2
        rw [WellFormed, mapSet_cons_ne k' k v' v tl hk]
        simp only [keys, List.map_cons, List.nodup_cons]
        refine ⟨fun hm => ?_, htl⟩
        rcases mem_keys_mapSet tl k v k' hm with h' | h'
        · exact h.1 h'
        · exact hk h'

theorem update_fst_of_get (s : CardAnimator) (cardId : Nat) (now : ℚ)
    (anim : AnimationEntry) (h : mapGet s cardId = some anim) :
    (update s cardId now).1 = some (animValue anim now) := by
  unfold update
  rw [h]
  by_cases hp : 1 ≤ min ((now - anim.startTime) / anim.duration) 1 <;> simp [hp]

theorem easedFun_mono {p q : ℚ} (hp : 0 ≤ p) (hpq : p ≤ q) (hq : q ≤ 1) :
    easedFun p ≤ easedFun q := by
  unfold easedFun
  split_ifs with h1 h2 h2
  · nlinarith
  · nlinarith [sq_nonneg (2 * p - 1), sq_nonneg (2 * q - 1)]
  · linarith
  · nlinarith [sq_nonneg (q - p)]

theorem easedFun_nonneg {p : ℚ} (hp : 0 ≤ p) (hq : p ≤ 1) : 0 ≤ easedFun p := by
  unfold easedFun
  split_ifs with h1
  · nlinarith
  · nlinarith [sq_nonneg (2 * p - 1)]

theorem easedFun_le_one {p : ℚ} (hp : 0 ≤ p) (hq : p ≤ 1) : easedFun p ≤ 1 := by
  unfold easedFun
  split_ifs with h1
  · nlinarith
  · nlinarith [sq_nonneg (p - 1)]

theorem clampedProgress_nonneg {e d : ℚ} (he : 0 ≤ e) (hd : 0 < d) :
    0 ≤ min (e / d) 1 :=
  le_min (div_nonneg he hd.le) zero_le_one

theorem clampedProgress_le_one (e d : ℚ) : min (e / d) 1 ≤ 1 :=
  min_le_right _ _

theorem update_of_get_none (s : CardAnimator) (cardId : Nat) (now : ℚ)
    (h : mapGet s cardId = none) : update s cardId now = (none, s) := by
  simp [update, h]

theorem update_eq_of_progress_lt (s : CardAnimator) (cardId : Nat) (now : ℚ)
    (anim : AnimationEntry) (h : mapGet s cardId = some anim)
    (hp : min ((now - anim.startTime) / anim.duration) 1 < 1) :
    update s cardId now = (some (animValue anim now), s) := by
  simp [update, h, not_le.mpr hp]

theorem update_eq_of_progress_ge (s : CardAnimator) (cardId : Nat) (now : ℚ)
    (anim : AnimationEntry) (h : mapGet s cardId = some anim)
    (hp : 1 ≤ min ((now - anim.startTime) / anim.duration) 1) :
    update s cardId now = (some (animValue anim now), mapDelete s cardId) := by
  simp [update, h, hp]

theorem animValue_at_start (anim : AnimationEntry) :
    animValue anim anim.startTime = anim.fromValue := by
  show anim.fromValue + (anim.toValue - anim.fromValue) *
      easedFun (min ((anim.startTime - anim.startTime) / anim.duration) 1) = _
  rw [sub_self, zero_div]
  norm_num [easedFun]

theorem animValue_at_end (anim : AnimationEntry) (now : ℚ)
    (hd : 0 < anim.duration) (hnow : anim.duration ≤ now - anim.startTime) :
    animValue anim now = anim.toValue := by
  have hprog : min ((now - anim.startTime) / anim.duration) 1 = 1 :=
    min_eq_right ((one_le_div hd).mpr hnow)
  show anim.fromValue + (anim.toValue - anim.fromValue) *
      easedFun (min ((now - anim.startTime) / anim.duration) 1) = _
  rw [hprog]
  norm_num [easedFun]

theorem update_complete (s : CardAnimator) (cardId : Nat) (now : ℚ)
    (anim : AnimationEntry) (h : mapGet s cardId = some anim)
    (hd : 0 < anim.duration) (hnow : anim.duration ≤ now - anim.startTime) :
    update s cardId now = (some anim.toValue, mapDelete s cardId) := by
  have hprog : min ((now - anim.startTime) / anim.duration) 1 = 1 :=
    min_eq_right ((one_le_div hd).mpr hnow)
  rw [update_eq_of_progress_ge s cardId now anim h (le_of_eq hprog.symm),
    animValue_at_end anim now hd hnow]

/-- A sample in-flight entry, used to instantiate theorems with hypotheses
at concrete inputs. -/
def sampleEntry : AnimationEntry :=
  { startTime := 0, duration := 200, fromValue := 0, toValue := 1
    property := AnimProperty.hover }

/-- A sample animator holding `sampleEntry` for entity 5. -/
def sampleState : CardAnimator := [(5, sampleEntry)]

/-- C1: for every entity with an active entry and every elapsed time
`e = now - startTime ≥ 0`, `update` returns
`from + (to - from) * eased p` with `p = min (e / durationMs) 1`, where
`eased p = 2*p*p` when `p < 0.5` and `eased p = 1 - ((-2*p+2)^2)/2`
otherwise. -/
theorem update_returns_eased_interpolation (s : CardAnimator) (cardId : Nat)
    (now : ℚ) (anim : AnimationEntry) (h : mapGet s cardId = some anim)
    (he : 0 ≤ now - anim.startTime) :
    (update s cardId now).1 =
      some (anim.fromValue + (anim.toValue - anim.fromValue) *
        (if min ((now - anim.startTime) / anim.duration) 1 < 1 / 2 then
          2 * min ((now - anim.startTime) / anim.duration) 1 *
            min ((now - anim.startTime) / anim.duration) 1
        else
          1 - ((-2) * min ((now - anim.startTime) / anim.duration) 1 + 2) ^ 2 / 2)) := by
  rw [update_fst_of_get s cardId now anim h]
  rfl

theorem update_returns_eased_interpolation_witness :
    (update sampleState 5 100).1 =
      some (sampleEntry.fromValue + (sampleEntry.toValue - sampleEntry.fromValue) *
        (if min ((100 - sampleEntry.startTime) / sampleEntry.duration) 1 < 1 / 2 then
          2 * min ((100 - sampleEntry.startTime) / sampleEntry.duration) 1 *
            min ((100 - sampleEntry.startTime) / sampleEntry.duration) 1
        else
          1 - ((-2) * min ((100 - sampleEntry.startTime) / sampleEntry.duration) 1 + 2) ^ 2 / 2)) :=
  update_returns_eased_interpolation sampleState 5 100 sampleEntry rfl
    (by norm_num [sampleEntry])

/-- C2: for every entry with `durationMs > 0`, `update` at elapsed time 0
returns a value equal to `from`; at any elapsed time ≥ `durationMs` it
returns `to`, removes the entry, and the next `update` call reports
absence. -/
theorem update_endpoints (s : CardAnimator) (cardId : Nat)
    (anim : AnimationEntry) (h : mapGet s cardId = some anim)
    (hd : 0 < anim.duration) :
    (update s cardId anim.startTime).1 = some anim.fromValue ∧
    ∀ now, anim.duration ≤ now - anim.startTime →
      (update s cardId now).1 = some anim.toValue ∧
      mapGet (update s cardId now).2 cardId = none ∧
      (update (update s cardId now).2 cardId now).1 = none := by
  constructor
  · rw [update_fst_of_get s cardId anim.startTime anim h, animValue_at_start]
  · intro now hnow
    have hc := update_complete s cardId now anim h hd hnow
    rw [hc]
    refine ⟨rfl, mapGet_mapDelete_self s cardId, ?_⟩
    rw [update_of_get_none (mapDelete s cardId) cardId now (mapGet_mapDelete_self s cardId)]

theorem update_endpoints_witness :
    (update sampleState 5 sampleEntry.startTime).1 = some sampleEntry.fromValue ∧
    (update sampleState 5 250).1 = some sampleEntry.toValue :=
  ⟨(update_endpoints sampleState 5 sampleEntry rfl (by norm_num [sampleEntry])).1,
   ((update_endpoints sampleState 5 sampleEntry rfl (by norm_num [sampleEntry])).2 250
      (by norm_num [sampleEntry])).1⟩

/-- C3: `startAnimation` unconditionally replaces any existing entry for the
entity, keeps at most one entry per entity, and every subsequent `update`
uses only the parameters of the second `start`. -/
theorem startAnimation_overwrites (s : CardAnimator) (cardId : Nat)
    (property : AnimProperty) (fromValue toValue duration now : ℚ) :
    mapGet (startAnimation s cardId property fromValue toValue duration now) cardId =
      some ⟨now, duration, fromValue, toValue, property⟩ ∧
    (WellFormed s →
      WellFormed (startAnimation s cardId property fromValue toValue duration now)) ∧
    ∀ now2,
      (update (startAnimation s cardId property fromValue toValue duration now) cardId now2).1 =
        some (fromValue + (toValue - fromValue) * easedFun (min ((now2 - now) / duration) 1)) := by
  refine ⟨mapGet_mapSet_self s cardId _, fun hw => wellFormed_mapSet s cardId _ hw, fun now2 => ?_⟩
  have h : mapGet (startAnimation s cardId property fromValue toValue duration now) cardId =
      some ⟨now, duration, fromValue, toValue, property⟩ :=
    mapGet_mapSet_self s cardId _
  rw [update_fst_of_get (startAnimation s cardId property fromValue toValue duration now)
      cardId now2 ⟨now, duration, fromValue, toValue, property⟩ h]
  rfl

theorem startAnimation_overwrites_witness :
    WellFormed (startAnimation sampleState 5 AnimProperty.flip 1 0 300 50) ∧
    (update (startAnimation sampleState 5 AnimProperty.flip 1 0 300 50) 5 200).1 =
      some (1 + (0 - 1) * easedFun (min ((200 - 50) / 300) 1)) :=
  ⟨(startAnimation_overwrites sampleState 5 AnimProperty.flip 1 0 300 50).2.1
      (List.nodup_singleton 5),
   (startAnimation_overwrites sampleState 5 AnimProperty.flip 1 0 300 50).2.2 200⟩

/-- C4: for a fixed entry with `durationMs > 0`, the values returned by
`update` at increasing elapsed times in `[0, durationMs]` move monotonically
from `from` toward `to`: non-decreasing when `from ≤ to`, non-increasing
when `to ≤ from`. -/
theorem update_monotone (s : CardAnimator) (cardId : Nat)
    (anim : AnimationEntry) (h : mapGet s cardId = some anim)
    (hd : 0 < anim.duration) (e1 e2 : ℚ) (h0 : 0 ≤ e1) (h12 : e1 ≤ e2)
    (h2 : e2 ≤ anim.duration) :
    (update s cardId (anim.startTime + e1)).1 =
      some (animValue anim (anim.startTime + e1)) ∧
    (update s cardId (anim.startTime + e2)).1 =
      some (animValue anim (anim.startTime + e2)) ∧
    (anim.fromValue ≤ anim.toValue →
      animValue anim (anim.startTime + e1) ≤ animValue anim (anim.startTime + e2)) ∧
    (anim.toValue ≤ anim.fromValue →
      animValue anim (anim.startTime + e2) ≤ animValue anim (anim.startTime + e1)) := by
  have key : ∀ e : ℚ, animValue anim (anim.startTime + e) =
      anim.fromValue + (anim.toValue - anim.fromValue) *
        easedFun (min (e / anim.duration) 1) := by
    intro e
    show anim.fromValue + (anim.toValue - anim.fromValue) *
        easedFun (min ((anim.startTime + e - anim.startTime) / anim.duration) 1) = _
    rw [add_sub_cancel_left]
  have hmono : easedFun (min (e1 / anim.duration) 1) ≤
      easedFun (min (e2 / anim.duration) 1) := by
    refine easedFun_mono (clampedProgress_nonneg h0 hd) ?_ (clampedProgress_le_one _ _)
    exact min_le_min ((div_le_div_right hd).mpr h12) le_rfl
  refine ⟨update_fst_of_get s cardId (anim.startTime + e1) anim h,
    update_fst_of_get s cardId (anim.startTime + e2) anim h, ?_, ?_⟩
  · intro hft
    rw [key e1, key e2]
    have := mul_le_mul_of_nonneg_left hmono (sub_nonneg.mpr hft)
    linarith
  · intro hft
    rw [key e1, key e2]
    have := mul_le_mul_of_nonpos_left hmono (sub_nonpos.mpr hft)
    linarith

theorem update_monotone_witness :
    animValue sampleEntry (sampleEntry.startTime + 50) ≤
      animValue sampleEntry (sampleEntry.startTime + 100) :=
  (update_monotone sampleState 5 sampleEntry rfl (by norm_num [sampleEntry]) 50 100
    (by norm_num) (by norm_num) (by norm_num [sampleEntry])).2.2.1
    (by norm_num [sampleEntry])

/-- C10: for every entry with `durationMs > 0` and every elapsed time ≥ 0,
the value returned by `update` lies between `min from to` and
`max from to`: clamped progress is in `[0,1]` and the easing maps `[0,1]`
into `[0,1]`. -/
theorem update_value_in_range (s : CardAnimator) (cardId : Nat)
    (anim : AnimationEntry) (now : ℚ) (h : mapGet s cardId = some anim)
    (hd : 0 < anim.duration) (he : 0 ≤ now - anim.startTime) :
    (update s cardId now).1 = some (animValue anim now) ∧
    min anim.fromValue anim.toValue ≤ animValue anim now ∧
    animValue anim now ≤ max anim.fromValue anim.toValue := by
  have hp0 : 0 ≤ min ((now - anim.startTime) / anim.duration) 1 :=
    clampedProgress_nonneg he hd
  have hp1 : min ((now - anim.startTime) / anim.duration) 1 ≤ 1 :=
    clampedProgress_le_one _ _
  have he0 := easedFun_nonneg hp0 hp1
  have he1 := easedFun_le_one hp0 hp1
  have hv : animValue anim now = anim.fromValue +
      (anim.toValue - anim.fromValue) *
        easedFun (min ((now - anim.startTime) / anim.duration) 1) := rfl
  refine ⟨update_fst_of_get s cardId now anim h, ?_, ?_⟩ <;> rw [hv]
  · rcases le_total anim.fromValue anim.toValue with hft | hft
    · rw [min_eq_left hft]
      nlinarith
    · rw [min_eq_right hft]
      nlinarith
  · rcases le_total anim.fromValue anim.toValue with hft | hft
    · rw [max_eq_right hft]
      nlinarith
    · rw [max_eq_left hft]
      nlinarith

theorem update_value_in_range_witness :
    min sampleEntry.fromValue sampleEntry.toValue ≤ animValue sampleEntry 150 ∧
    animValue sampleEntry 150 ≤ max sampleEntry.fromValue sampleEntry.toValue :=
  ⟨(update_value_in_range sampleState 5 sampleEntry 150 rfl (by norm_num [sampleEntry])
      (by norm_num [sampleEntry])).2.1,
   (update_value_in_range sampleState 5 sampleEntry 150 rfl (by norm_num [sampleEntry])
      (by norm_num [sampleEntry])).2.2⟩

/-- C6: `update` on an entity with no active entry returns `null`, leaves
the state unchanged on repeated calls; all four operations are total and an
identifier absent from the map behaves as "no active animation". -/
theorem update_absent_total (s : CardAnimator) (cardId : Nat) (now : ℚ)
    (h : mapGet s cardId = none) :
    update s cardId now = (none, s) ∧
    update (update s cardId now).2 cardId now = (none, s) ∧
    isAnimating s cardId = false ∧
    ∀ e now2, update ([] : CardAnimator) e now2 = (none, []) ∧
      isAnimating ([] : CardAnimator) e = false ∧
      hasActiveAnimations ([] : CardAnimator) = false := by
  have h0 := update_of_get_none s cardId now h
  refine ⟨h0, ?_, ?_, fun e now2 => ⟨rfl, rfl, rfl⟩⟩
  · rw [h0]
    exact h0
  · simp [isAnimating, h]

theorem update_absent_total_witness :
    update [(3, sampleEntry)] 5 100 = (none, [(3, sampleEntry)]) :=
  (update_absent_total [(3, sampleEntry)] 5 100 rfl).1

/-- The concrete C7 scenario state: `start(5, "hover", 0, 1, 200)` at
wall-clock time 0. -/
def scenarioHover : CardAnimator := startAnimation [] 5 AnimProperty.hover 0 1 200 0

/-- C7: after `start(5, "hover", 0, 1, 200)` at t=0, `update(5)` at t=100
returns 0.5, `update(5)` at t=250 returns 1, and every subsequent
`update(5)` returns absence. -/
theorem scenario_hover_updates :
    (update scenarioHover 5 100).1 = some (1 / 2) ∧
    (update scenarioHover 5 250).1 = some 1 ∧
    ∀ now, (update (update scenarioHover 5 250).2 5 now).1 = none := by
  have hget : mapGet scenarioHover 5 = some ⟨0, 200, 0, 1, AnimProperty.hover⟩ := rfl
  have hc := update_complete scenarioHover 5 250 ⟨0, 200, 0, 1, AnimProperty.hover⟩ hget
    (by norm_num) (by norm_num)
  refine ⟨?_, ?_, fun now => ?_⟩
  · rw [update_fst_of_get scenarioHover 5 100 ⟨0, 200, 0, 1, AnimProperty.hover⟩ hget]
    have hm : min (((100 : ℚ) - 0) / 200) 1 = 1 / 2 := by
      rw [min_eq_left] <;> norm_num
    have : animValue ⟨0, 200, 0, 1, AnimProperty.hover⟩ 100 = 1 / 2 := by
      show (0 : ℚ) + (1 - 0) * easedFun (min ((100 - 0) / 200) 1) = 1 / 2
      rw [hm]
      norm_num [easedFun]
    rw [this]
  · rw [hc]
  · rw [hc]
    exact congrArg Prod.fst
      (update_of_get_none (mapDelete scenarioHover 5) 5 now rfl)

/-- C8: `isAnimating` is the pure existence check on the map (it takes the
state and returns only a Bool, mutating nothing), is true immediately after
`startAnimation`, and is false once the duration has elapsed and one
completing `update` call has run; `hasActiveAnimations` is true exactly when
at least one entry remains. -/
theorem isAnimating_contract (s : CardAnimator) (cardId : Nat)
    (property : AnimProperty) (fromValue toValue duration now : ℚ) :
    isAnimating s cardId = (mapGet s cardId).isSome ∧
    isAnimating (startAnimation s cardId property fromValue toValue duration now)
      cardId = true ∧
    (0 < duration → ∀ now2, duration ≤ now2 - now →
      isAnimating
        (update (startAnimation s cardId property fromValue toValue duration now)
          cardId now2).2 cardId = false) ∧
    (hasActiveAnimations s = true ↔ s ≠ []) := by
  have hget : mapGet (startAnimation s cardId property fromValue toValue duration now)
      cardId = some ⟨now, duration, fromValue, toValue, property⟩ :=
    mapGet_mapSet_self s cardId _
  refine ⟨rfl, ?_, fun hd now2 hnow => ?_, ?_⟩
  · simp [isAnimating, hget]
  · have hc := update_complete
      (startAnimation s cardId property fromValue toValue duration now) cardId now2
      ⟨now, duration, fromValue, toValue, property⟩ hget hd hnow
    rw [hc]
    simp [isAnimating, mapGet_mapDelete_self]
  · simp [hasActiveAnimations, List.length_pos]

theorem isAnimating_contract_witness :
    isAnimating (update (startAnimation [] 3 AnimProperty.flip 0 1 300 0) 3 300).2 3 = false :=
  (isAnimating_contract [] 3 AnimProperty.flip 0 1 300 0).2.2.1 (by norm_num) 300
    (by norm_num)

/-- C9: `startAnimation` and `update` for an entity leave every other
entity's entry exactly as it was, and an `update` whose clamped progress is
below 1 leaves the whole state unchanged (deleting the completed entry is
the only mutation `update` performs). -/
theorem frame_preservation (s : CardAnimator) (e e' : Nat) (hne : e ≠ e')
    (property : AnimProperty) (fromValue toValue duration now : ℚ) :
    mapGet (startAnimation s e property fromValue toValue duration now) e' = mapGet s e' ∧
    mapGet (update s e now).2 e' = mapGet s e' ∧
    ∀ anim, mapGet s e = some anim →
      min ((now - anim.startTime) / anim.duration) 1 < 1 →
      (update s e now).2 = s := by
  refine ⟨mapGet_mapSet_ne s e e' _ hne, ?_, fun anim h hp => ?_⟩
  · rcases hcase : mapGet s e with _ | anim
    · rw [update_of_get_none s e now hcase]
    · by_cases hp : 1 ≤ min ((now - anim.startTime) / anim.duration) 1
      · rw [update_eq_of_progress_ge s e now anim hcase hp]
        exact mapGet_mapDelete_ne s e e' hne
      · rw [update_eq_of_progress_lt s e now anim hcase (not_le.mp hp)]
  · rw [update_eq_of_progress_lt s e now anim h hp]

theorem frame_preservation_witness :
    mapGet (startAnimation sampleState 3 AnimProperty.flip 0 1 300 0) 5 =
      mapGet sampleState 5 :=
  (frame_preservation sampleState 3 5 (by decide) AnimProperty.flip 0 1 300 0).1

/-- C5 as stated is false: with `durationMs = -100`, the very next `update`
call (elapsed time 16 > 0) does not complete the animation — the entry is
still present afterwards. -/
theorem negative_duration_counterexample :
    (update (startAnimation [] 3 AnimProperty.flip 0 1 (-100) 0) 3 16).2 =
      startAnimation [] 3 AnimProperty.flip 0 1 (-100) 0 ∧
    isAnimating (update (startAnimation [] 3 AnimProperty.flip 0 1 (-100) 0) 3 16).2 3 =
      true := by
  have hget : mapGet (startAnimation [] 3 AnimProperty.flip 0 1 (-100) 0) 3 =
      some ⟨0, -100, 0, 1, AnimProperty.flip⟩ := rfl
  have hp : min (((16 : ℚ) - 0) / (-100)) 1 < 1 := by
    rw [min_eq_left] <;> norm_num
  have h := update_eq_of_progress_lt (startAnimation [] 3 AnimProperty.flip 0 1 (-100) 0)
    3 16 ⟨0, -100, 0, 1, AnimProperty.flip⟩ hget hp
  rw [h]
  exact ⟨rfl, rfl⟩

/-- C5 amended: for every entry with `durationMs < 0` and any elapsed time
≥ 0, `update` returns a value but leaves the entry in place — the clamped
progress is never ≥ 1, so the animation never completes (rather than
completing immediately as the claim states). -/
theorem negative_duration_never_completes (s : CardAnimator) (cardId : Nat)
    (anim : AnimationEntry) (now : ℚ) (h : mapGet s cardId = some anim)
    (hd : anim.duration < 0) (he : 0 ≤ now - anim.startTime) :
    update s cardId now = (some (animValue anim now), s) := by
  apply update_eq_of_progress_lt s cardId now anim h
  have hdiv : (now - anim.startTime) / anim.duration ≤ 0 :=
    div_nonpos_of_nonneg_of_nonpos he hd.le
  exact lt_of_le_of_lt (le_trans (min_le_left _ _) hdiv) one_pos

theorem negative_duration_never_completes_witness :
    update (startAnimation [] 3 AnimProperty.flip 0 1 (-100) 0) 3 16 =
      (some (animValue ⟨0, -100, 0, 1, AnimProperty.flip⟩ 16),
        startAnimation [] 3 AnimProperty.flip 0 1 (-100) 0) :=
  negative_duration_never_completes (startAnimation [] 3 AnimProperty.flip 0 1 (-100) 0)
    3 ⟨0, -100, 0, 1, AnimProperty.flip⟩ 16 rfl (by norm_num) (by norm_num)
